import Mathlib

/-!
Verification of the automated F1 post-race evaluation and monitoring core
(`auto_race_evaluator.py`, `bet_simulator.py`, `auto_race_monitor.py`).

The Python code is shallowly embedded: pandas DataFrames become lists of
records, file-system state becomes an explicit `EvalState`, the wall clock
and fallible I/O (plot writing, file moves) become explicit parameters.
Monetary quantities are rationals, finishing positions are integers.
-/

/-- One row of the master simulation log (`simulation_log` entries built in
`F1BetSimulator.simulate_bets`). -/
structure SettledBet where
  Race_Name : String
  Driver : String
  Quote : ℚ
  Predicted_Probability : ℚ
  EV : ℚ
  Actual_Position : ℤ
  Bet_Amount : ℚ
  Outcome : String
  Profit_Loss : ℚ
  Success_Threshold : ℤ
deriving DecidableEq, Repr

/-- One row of the betting recommendations CSV
(columns Driver, Quote, Predicted_Probability, EV, Race_Name). -/
structure BetRow where
  Driver : String
  Quote : ℚ
  Predicted_Probability : ℚ
  EV : ℚ
  Race_Name : String
deriving DecidableEq, Repr

/-- One row of a race results CSV (columns Driver, Actual_Position and,
optionally, Race_Name). -/
structure ResultRow where
  Driver : String
  Actual_Position : ℤ
  Race_Name : String
deriving DecidableEq, Repr

/-- The parsed content of a result CSV: which of the relevant columns are
present, and the data rows.  When `hasRaceNameCol` is false the `Race_Name`
field of the rows is junk and is overwritten by the evaluator. -/
structure ParsedCsv where
  hasDriverCol : Bool
  hasPositionCol : Bool
  hasRaceNameCol : Bool
  rows : List ResultRow
deriving DecidableEq, Repr

/-- A file in the watch directory: its base name, its age in seconds at scan
time, and its parsed content (`none` models a file `pd.read_csv` cannot
read). -/
structure RaceFile where
  name : String
  age : ℚ
  parsed : Option ParsedCsv
deriving DecidableEq, Repr

/-- The configuration fields of `auto_evaluator_config.json` that the
reconciliation path reads. -/
structure EvalConfig where
  successThreshold : ℤ
  betAmount : ℚ
  startingCapital : ℚ
deriving DecidableEq, Repr

/-- The durable state touched by `process_new_race_results`: the master
ledger CSV, the profit-graph series, the watch directory, the archive
directory and the processed-races registry. -/
structure EvalState where
  masterLog : List SettledBet
  profitSeries : List ℚ
  watchFiles : List String
  archiveFiles : List String
  processedRaces : List String
deriving DecidableEq, Repr

/-- Observable state mutations of one `process_new_race_results` call, in
the order they are performed. -/
inductive Ev where
  | ledgerAppend
  | graphRegen
  | archiveMove
  | registryUpdate
deriving DecidableEq, Repr

/- ### String utilities (Python `str` operations used by the source) -/

/-- Whether `needle` occurs at the start of `hay` (helper for substring
search). -/
def leadsWith : List Char → List Char → Bool
  | _, [] => true
  | [], _ :: _ => false
  | h :: hs, n :: ns => (h = n) && leadsWith hs ns

/-- Whether `needle` occurs anywhere inside `hay`; embeds Python's
`needle in hay` on strings. -/
def hasSub : List Char → List Char → Bool
  | [], needle => needle.isEmpty
  | h :: t, needle => leadsWith (h :: t) needle || hasSub t needle

/-- Substring test on strings (Python `needle in hay`). -/
def strContains (hay needle : String) : Bool :=
  hasSub hay.toList needle.toList

/-- Python's `str.lower()` (ASCII, as in the filenames involved). -/
def strToLower (s : String) : String :=
  String.mk (s.toList.map Char.toLower)

/-- Helper for `titleCase`: tracks whether the previous character was
alphabetic. -/
def titleCaseAux : Bool → List Char → List Char
  | _, [] => []
  | prevAlpha, c :: cs =>
      (if c.isAlpha then (if prevAlpha then c.toLower else c.toUpper) else c)
        :: titleCaseAux c.isAlpha cs

/-- Python's `str.title()`: capitalize the first letter of every run of
alphabetic characters, lower-case the rest. -/
def titleCase (s : String) : String :=
  String.mk (titleCaseAux false s.toList)

/-- Distinct elements of a list in order of first occurrence (pandas
`Series.unique()`). -/
def firstSeenAux (seen : List String) : List String → List String
  | [] => []
  | x :: xs => if x ∈ seen then firstSeenAux seen xs
               else x :: firstSeenAux (x :: seen) xs

/-- All suffixes of a list, longest first (helper for `*` in glob
patterns). -/
def suffixes : List Char → List (List Char)
  | [] => [[]]
  | c :: t => (c :: t) :: suffixes t

/-- Shell-glob matching with `*` (any run) and `?` (any single char), the
semantics of `glob.glob` for the patterns used in the configuration: a
leading `*` matches when the rest of the pattern matches some suffix. -/
def globMatch : List Char → List Char → Bool
  | [], s => s.isEmpty
  | c :: ps, s =>
      if c = '*' then
        (suffixes s).any (fun t => globMatch ps t)
      else
        match s with
        | [] => false
        | d :: s' => (c = '?' || c = d) && globMatch ps s'

/-- Glob matching on strings. -/
def globMatchStr (pat name : String) : Bool :=
  globMatch pat.toList name.toList

/-- Stable insertion of a string into a sorted list (ascending). -/
def insertStr (a : String) : List String → List String
  | [] => [a]
  | b :: bs => if a < b then a :: b :: bs else b :: insertStr a bs

/-- Sort a list of strings ascending (the key order `pandas.groupby` uses). -/
def sortStr : List String → List String :=
  List.foldr insertStr []

/- ### ProfitLedger: `update_master_log` -/

/-- Dedup key of a ledger row: the `(Race_Name, Driver)` pair. -/
def bkey (b : SettledBet) : String × String :=
  (b.Race_Name, b.Driver)

/-- Whether some row of `l` has dedup key `k`. -/
def keyMem (k : String × String) (l : List SettledBet) : Bool :=
  l.any (fun s => decide (bkey s = k))

/-- Order-preserving removal of duplicate `(Race_Name, Driver)` keys keeping
the last occurrence: `DataFrame.drop_duplicates(subset=[...], keep="last")`. -/
def dedupLast : List SettledBet → List SettledBet
  | [] => []
  | r :: rs => if keyMem (bkey r) rs then dedupLast rs else r :: dedupLast rs

/-- `AutoRaceEvaluator.update_master_log`: concatenate the existing log with
the new batch, then drop duplicate `(Race_Name, Driver)` keys keeping the
last. -/
def updateMasterLog (existing newData : List SettledBet) : List SettledBet :=
  dedupLast (existing ++ newData)

/-- The last row of `l` whose dedup key is `k`, if any. -/
def lastWithKey (k : String × String) (l : List SettledBet) : Option SettledBet :=
  (l.filter (fun s => decide (bkey s = k))).getLast?

/- ### F1BetSimulator.simulate_bets -/

/-- Settlement of one joined (recommendation, result) row: WIN with profit
`Quote * stake - stake` when `Actual_Position <= top_n_success`, otherwise
LOSS with profit `-stake`. -/
def settleRow (thr : ℤ) (stake : ℚ) (b : BetRow) (r : ResultRow) : SettledBet :=
  if r.Actual_Position ≤ thr then
    { Race_Name := r.Race_Name, Driver := r.Driver, Quote := b.Quote,
      Predicted_Probability := b.Predicted_Probability, EV := b.EV,
      Actual_Position := r.Actual_Position, Bet_Amount := stake,
      Outcome := "WIN", Profit_Loss := b.Quote * stake - stake,
      Success_Threshold := thr }
  else
    { Race_Name := r.Race_Name, Driver := r.Driver, Quote := b.Quote,
      Predicted_Probability := b.Predicted_Probability, EV := b.EV,
      Actual_Position := r.Actual_Position, Bet_Amount := stake,
      Outcome := "LOSS", Profit_Loss := -stake,
      Success_Threshold := thr }

/-- Inner merge of recommendations and results on `(Driver, Race_Name)`;
row order follows the left (betting) frame, as `pd.merge(..., how="inner")`
does. -/
def mergeRows (bets : List BetRow) (results : List ResultRow) :
    List (BetRow × ResultRow) :=
  bets.flatMap (fun b =>
    (results.filter (fun r =>
        decide (r.Driver = b.Driver) && decide (r.Race_Name = b.Race_Name))).map
      (fun r => (b, r)))

/-- The `simulation_log` built by `simulate_bets`: races grouped in first-seen
order, each row settled by `settleRow`. -/
def simulationLog (merged : List (BetRow × ResultRow)) (thr : ℤ) (stake : ℚ) :
    List SettledBet :=
  (firstSeenAux [] (merged.map (fun br => br.2.Race_Name))).flatMap
    (fun rn =>
      (merged.filter (fun br => decide (br.2.Race_Name = rn))).map
        (fun br => settleRow thr stake br.1 br.2))

/- ### Profit graph: `update_profit_graph` -/

/-- Sum of `Profit_Loss` over the rows of `log` for the race `name`
(one group of `log_df.groupby("Race_Name")["Profit_Loss"].sum()`). -/
def raceProfitSum (log : List SettledBet) (name : String) : ℚ :=
  ((log.filter (fun b => decide (b.Race_Name = name))).map
    (fun b => b.Profit_Loss)).sum

/-- The group keys of `log_df.groupby("Race_Name")`: the distinct race names
sorted ascending (pandas sorts group keys by default). -/
def raceKeys (log : List SettledBet) : List String :=
  sortStr (firstSeenAux [] (log.map (fun b => b.Race_Name)))

/-- Per-race summed profit/loss in group-key order. -/
def raceProfits (log : List SettledBet) : List ℚ :=
  (raceKeys log).map (raceProfitSum log)

/-- Running partial sums starting from `start` (`Series.cumsum()` shifted by
the starting capital). -/
def cumsumFrom (start : ℚ) : List ℚ → List ℚ
  | [] => []
  | x :: xs => (start + x) :: cumsumFrom (start + x) xs

/-- The total-capital series plotted by `update_profit_graph`:
`log_df.groupby("Race_Name")["Profit_Loss"].sum().cumsum() + starting_capital`. -/
def capitalSeries (log : List SettledBet) (start : ℚ) : List ℚ :=
  cumsumFrom start (raceProfits log)

/-- Modelled from the spec: the cumulative-capital series with races taken in
first-occurrence order of the ledger, as section 4.5 of the spec words it
("group by race in first-occurrence order").  Used only to compare the
spec's ordering against the code's sorted group keys. -/
def firstSeenCapitalSeries (log : List SettledBet) (start : ℚ) : List ℚ :=
  cumsumFrom start
    ((firstSeenAux [] (log.map (fun b => b.Race_Name))).map (raceProfitSum log))

/- ### AutoF1RaceMonitor: clock policy and schedule -/

/-- Hours remaining until the race: `(race_time - now).total_seconds() / 3600`
with both instants in seconds. -/
def hoursUntilRace (raceTime now : ℚ) : ℚ :=
  (raceTime - now) / 3600

/-- `AutoF1RaceMonitor.should_fetch_odds`: true when the time until the race
is within 1 hour of any configured fetch offset. -/
def shouldFetchOdds (fetchTimes : List ℚ) (raceTime now : ℚ) : Bool :=
  fetchTimes.any (fun ft => decide (|hoursUntilRace raceTime now - ft| ≤ 1))

/-- `AutoF1RaceMonitor.should_generate_predictions`: true when the time until
the race is within 1 hour of the configured prediction offset. -/
def shouldGeneratePredictions (predictionTime raceTime now : ℚ) : Bool :=
  decide (|hoursUntilRace raceTime now - predictionTime| ≤ 1)

/-- Default `odds_fetch_hours_before_race` from `auto_monitor_config.json`. -/
def defaultOddsFetchHours : List ℚ := [72, 48, 24, 12, 6, 2]

/-- Default `prediction_hours_before_race`. -/
def defaultPredictionHours : ℚ := 24

/-- One schedule entry as stored in `race_schedule.json`; `race_date` is
`none` when the session date was missing (`NaN`). -/
structure RaceEntry where
  race_name : String
  race_date : Option ℤ
  round_number : ℕ
deriving DecidableEq, Repr

/-- Whether a schedule entry has a date strictly after `now`
(the filter inside `get_next_race`). -/
def isUpcoming (now : ℤ) (r : RaceEntry) : Bool :=
  match r.race_date with
  | some t => decide (now < t)
  | none => false

/-- The date of an entry, defaulting to 0; only applied to upcoming entries,
whose date is always present. -/
def dateD (r : RaceEntry) : ℤ :=
  r.race_date.getD 0

/-- Stable insertion by date (ties keep the earlier element first), the
building block of the stable `list.sort(key=lambda x: x[1])`. -/
def insertByDate (a : RaceEntry) : List RaceEntry → List RaceEntry
  | [] => [a]
  | b :: bs => if dateD a ≤ dateD b then a :: b :: bs else b :: insertByDate a bs

/-- Stable sort by date (Python's `sort` is stable, and a stable sort's
output is unique, so insertion sort embeds it faithfully). -/
def sortByDate : List RaceEntry → List RaceEntry :=
  List.foldr insertByDate []

/-- `AutoF1RaceMonitor.get_next_race`: keep the dated entries strictly after
`now`, sort by date, return the first with its date, or `none`. -/
def getNextRace (races : List RaceEntry) (now : ℤ) : Option (RaceEntry × ℤ) :=
  match sortByDate (races.filter (isUpcoming now)) with
  | [] => none
  | r :: _ => some (r, dateD r)

/- ### AutoRaceEvaluator: detection, validation, processing -/

/-- Default `file_patterns` from `auto_evaluator_config.json`. -/
def defaultFilePatterns : List String :=
  ["*results*.csv", "*race_results*.csv", "*actual*.csv"]

/-- Default `min_file_age_seconds`. -/
def defaultMinFileAge : ℚ := 30

/-- `AutoRaceEvaluator.detect_new_race_files`: for each pattern in turn, every
directory file matching it whose age is at least `minAge` and whose name is
not in the processed-races registry is appended to the candidate list. -/
def detectNewRaceFiles (patterns : List String) (minAge : ℚ)
    (registry : List String) (watch : List RaceFile) : List RaceFile :=
  patterns.foldl
    (fun acc pat =>
      acc ++ (watch.filter (fun f => globMatchStr pat f.name)).filter
        (fun f => decide (minAge ≤ f.age) && decide (f.name ∉ registry)))
    []

/-- The keyword list `race_indicators` in `extract_race_name_from_file`. -/
def raceIndicators : List String :=
  ["bahrain", "saudi", "australia", "japan", "china", "miami", "spain",
   "monaco", "canada", "austria", "britain", "hungary", "belgium",
   "netherlands", "italy", "singapore", "russia", "turkey", "usa",
   "mexico", "brazil", "qatar", "abu_dhabi"]

/-- `AutoRaceEvaluator.extract_race_name_from_file`: first a keyword match
against the filename, then the file's `Race_Name` column if it has exactly
one distinct value, finally a timestamp-derived fallback (`nowStamp` embeds
`datetime.now().strftime(...)`). -/
def extractRaceName (f : RaceFile) (nowStamp : String) : String :=
  match raceIndicators.find?
      (fun ind => strContains (strToLower f.name) (strToLower ind)) with
  | some ind => titleCase ind ++ " GP"
  | none =>
    let fromContent : Option String :=
      match f.parsed with
      | some p =>
          if p.hasRaceNameCol then
            match firstSeenAux [] (p.rows.map (fun r => r.Race_Name)) with
            | [n] => some n
            | _ => none
          else none
      | none => none
    match fromContent with
    | some n => n
    | none => "Race_" ++ nowStamp

/-- `AutoRaceEvaluator.validate_race_results_file`: fails when the file is
unreadable or one of the required columns Driver, Actual_Position is
missing (null positions only produce a warning). -/
def validateFile (f : RaceFile) : Bool :=
  match f.parsed with
  | none => false
  | some p => p.hasDriverCol && p.hasPositionCol

/-- The batch of settled bets produced for one result file: filter the
recommendations to the extracted race name, attach the race name to the
result rows when the file lacks the column, merge and settle. -/
def processBatch (cfg : EvalConfig) (betting : List BetRow) (p : ParsedCsv)
    (file : RaceFile) (nowStamp : String) : List SettledBet :=
  let raceName := extractRaceName file nowStamp
  let resultRows :=
    if p.hasRaceNameCol then p.rows
    else p.rows.map (fun r => { r with Race_Name := raceName })
  let raceBets := betting.filter (fun b => decide (b.Race_Name = raceName))
  simulationLog (mergeRows raceBets resultRows)
    cfg.successThreshold cfg.betAmount

/-- `AutoRaceEvaluator.process_new_race_results`.  `recs` is the content of
the betting recommendations file (`none` when absent); `graphWriteFails`
models an exception inside `update_profit_graph`'s try block (caught and
logged there); `archiveMoveFails` models an exception inside
`archive_processed_file`'s try block (also caught and logged).  Returns the
success flag, the new durable state, and the performed mutations in order. -/
def processNewRaceResults (cfg : EvalConfig) (recs : Option (List BetRow))
    (file : RaceFile) (nowStamp : String)
    (graphWriteFails archiveMoveFails : Bool) (st : EvalState) :
    Bool × EvalState × List Ev :=
  if validateFile file then
    match file.parsed with
    | none => (false, st, [])
    | some p =>
      let raceName := extractRaceName file nowStamp
      match recs with
      | none => (false, st, [])
      | some betting =>
        let batch := processBatch cfg betting p file nowStamp
        let newLedger := updateMasterLog st.masterLog batch
        let newSeries :=
          if graphWriteFails then st.profitSeries
          else capitalSeries newLedger cfg.startingCapital
        let archName :=
          nowStamp ++ "_" ++ String.replace raceName " " "_" ++ "_" ++ file.name
        (true,
         { masterLog := newLedger,
           profitSeries := newSeries,
           watchFiles :=
             if archiveMoveFails then st.watchFiles
             else st.watchFiles.erase file.name,
           archiveFiles :=
             if archiveMoveFails then st.archiveFiles
             else st.archiveFiles ++ [archName],
           processedRaces := st.processedRaces ++ [file.name] },
         [Ev.ledgerAppend]
           ++ (if graphWriteFails then [] else [Ev.graphRegen])
           ++ (if archiveMoveFails then [] else [Ev.archiveMove])
           ++ [Ev.registryUpdate])
  else (false, st, [])

/-- The per-file loop of `AutoRaceEvaluator.run_single_check`: process each
candidate and count the successes. -/
def processFilesCount (cfg : EvalConfig) (recs : Option (List BetRow))
    (nowStamp : String) (graphWriteFails archiveMoveFails : Bool)
    (files : List RaceFile) (st : EvalState) : ℕ × EvalState :=
  files.foldl
    (fun acc f =>
      let r := processNewRaceResults cfg recs f nowStamp
        graphWriteFails archiveMoveFails acc.2
      (acc.1 + (if r.1 then 1 else 0), r.2.1))
    (0, st)

/-- A two-race sample ledger whose first-seen race order ("B" before "A")
differs from the sorted group-key order; used for concrete checks of the
capital series. -/
def exampleLedger : List SettledBet :=
  [{ Race_Name := "B", Driver := "d1", Quote := 2,
     Predicted_Probability := 1, EV := 1, Actual_Position := 1,
     Bet_Amount := 10, Outcome := "WIN", Profit_Loss := 10,
     Success_Threshold := 3 },
   { Race_Name := "A", Driver := "d2", Quote := 2,
     Predicted_Probability := 1, EV := 1, Actual_Position := 5,
     Bet_Amount := 10, Outcome := "LOSS", Profit_Loss := -5,
     Success_Threshold := 3 }]

/- ### Helper lemmas about the ledger dedup -/

theorem keyMem_append (k : String × String) (A B : List SettledBet) :
    keyMem k (A ++ B) = (keyMem k A || keyMem k B) := by
  simp [keyMem, List.any_append]

theorem keyMem_iff {k : String × String} {l : List SettledBet} :
    keyMem k l = true ↔ ∃ s ∈ l, bkey s = k := by
  simp [keyMem]

theorem mem_of_mem_dedupLast {x : SettledBet} : ∀ {l : List SettledBet},
    x ∈ dedupLast l → x ∈ l := by
  intro l
  induction l with
  | nil => intro h; exact h
  | cons r rs ih =>
    intro h
    simp only [dedupLast] at h
    by_cases hk : keyMem (bkey r) rs = true
    · rw [if_pos hk] at h
      exact List.mem_cons_of_mem _ (ih h)
    · rw [if_neg hk] at h
      rcases List.mem_cons.mp h with h1 | h2
      · exact h1 ▸ List.mem_cons_self _ _
      · exact List.mem_cons_of_mem _ (ih h2)

theorem pairwise_dedupLast (l : List SettledBet) :
    List.Pairwise (fun a b => bkey a ≠ bkey b) (dedupLast l) := by
  induction l with
  | nil => simp [dedupLast]
  | cons r rs ih =>
    simp only [dedupLast]
    by_cases hk : keyMem (bkey r) rs = true
    · rw [if_pos hk]; exact ih
    · rw [if_neg hk]
      refine List.Pairwise.cons (fun b hb hEq => ?_) ih
      exact hk (keyMem_iff.mpr ⟨b, mem_of_mem_dedupLast hb, hEq.symm⟩)

theorem dedupLast_eq_self {l : List SettledBet}
    (h : List.Pairwise (fun a b => bkey a ≠ bkey b) l) : dedupLast l = l := by
  induction l with
  | nil => rfl
  | cons r rs ih =>
    have hk : ¬ keyMem (bkey r) rs = true := by
      intro hm
      rcases keyMem_iff.mp hm with ⟨s, hs, hEq⟩
      exact (List.rel_of_pairwise_cons h hs) hEq.symm
    simp only [dedupLast]
    rw [if_neg hk, ih h.of_cons]

theorem dedupLast_append (A B : List SettledBet) :
    dedupLast (A ++ B) =
      (dedupLast A).filter (fun r => !keyMem (bkey r) B) ++ dedupLast B := by
  induction A with
  | nil => simp [dedupLast]
  | cons r A ih =>
    by_cases hA : keyMem (bkey r) A = true
    · have h2 : keyMem (bkey r) (A ++ B) = true := by
        rw [keyMem_append, hA]; rfl
      simp [dedupLast, hA, h2, ih]
    · by_cases hB : keyMem (bkey r) B = true
      · have h2 : keyMem (bkey r) (A ++ B) = true := by
          rw [keyMem_append, hB]; simp
        simp [dedupLast, hA, h2, ih, hB]
      · have h2 : ¬ keyMem (bkey r) (A ++ B) = true := by
          rw [keyMem_append]
          simp [hA, hB]
        simp [dedupLast, hA, h2, ih, hB]

theorem filter_keyMem_self (N : List SettledBet) :
    (dedupLast N).filter (fun r => !keyMem (bkey r) N) = [] := by
  rw [List.filter_eq_nil_iff]
  intro a ha
  simp only [Bool.not_eq_true', Bool.not_eq_false]
  exact keyMem_iff.mpr ⟨a, mem_of_mem_dedupLast ha, rfl⟩

theorem updateMasterLog_idem (E N : List SettledBet) :
    updateMasterLog (updateMasterLog E N) N = updateMasterLog E N := by
  unfold updateMasterLog
  rw [dedupLast_append (dedupLast (E ++ N)) N,
      dedupLast_eq_self (pairwise_dedupLast (E ++ N)),
      dedupLast_append E N, List.filter_append, filter_keyMem_self]
  have hidem :
      (((dedupLast E).filter (fun r => !keyMem (bkey r) N)).filter
        (fun r => !keyMem (bkey r) N))
        = (dedupLast E).filter (fun r => !keyMem (bkey r) N) :=
    List.filter_eq_self.mpr (fun a ha => (List.mem_filter.mp ha).2)
  rw [hidem]
  simp

theorem lastWithKey_dedupLast (k : String × String) :
    ∀ l : List SettledBet, lastWithKey k (dedupLast l) = lastWithKey k l := by
  intro l
  induction l with
  | nil => rfl
  | cons r rs ih =>
    simp only [dedupLast]
    by_cases hk : keyMem (bkey r) rs = true
    · rw [if_pos hk]
      by_cases hr : bkey r = k
      · rcases keyMem_iff.mp hk with ⟨s, hs, hEq⟩
        have hsk : s ∈ rs.filter (fun t => decide (bkey t = k)) :=
          List.mem_filter.mpr ⟨hs, by simp [hEq, hr]⟩
        have hne : rs.filter (fun t => decide (bkey t = k)) ≠ [] :=
          List.ne_nil_of_mem hsk
        rw [ih]
        unfold lastWithKey
        rw [List.filter_cons_of_pos (by simp [hr])]
        rcases List.exists_cons_of_ne_nil hne with ⟨y, ys, hys⟩
        rw [hys, List.getLast?_cons_cons]
      · rw [ih]
        unfold lastWithKey
        rw [List.filter_cons_of_neg (by simp [hr])]
    · rw [if_neg hk]
      by_cases hr : bkey r = k
      · have h1 : rs.filter (fun t => decide (bkey t = k)) = [] := by
          rw [List.filter_eq_nil_iff]
          intro a ha hd
          have : bkey a = k := of_decide_eq_true hd
          exact hk (keyMem_iff.mpr ⟨a, ha, this.trans hr.symm⟩)
        have h2 : (dedupLast rs).filter (fun t => decide (bkey t = k)) = [] := by
          rw [List.filter_eq_nil_iff]
          intro a ha hd
          have : bkey a = k := of_decide_eq_true hd
          exact hk (keyMem_iff.mpr ⟨a, mem_of_mem_dedupLast ha, this.trans hr.symm⟩)
        unfold lastWithKey
        rw [List.filter_cons_of_pos (by simp [hr]),
            List.filter_cons_of_pos (by simp [hr]), h1, h2]
      · unfold lastWithKey at ih ⊢
        rw [List.filter_cons_of_neg (by simp [hr]),
            List.filter_cons_of_neg (by simp [hr])]
        exact ih

theorem lastWithKey_updateMasterLog (E N : List SettledBet)
    (k : String × String) (h : keyMem k N = true) :
    lastWithKey k (updateMasterLog E N) = lastWithKey k N := by
  unfold updateMasterLog
  rw [dedupLast_append]
  have h1 : ((dedupLast E).filter (fun r => !keyMem (bkey r) N)).filter
      (fun t => decide (bkey t = k)) = [] := by
    rw [List.filter_eq_nil_iff]
    intro a ha hd
    have h2 := (List.mem_filter.mp ha).2
    simp only [Bool.not_eq_true'] at h2
    have h3 : bkey a = k := of_decide_eq_true hd
    rw [h3] at h2
    rw [h2] at h
    exact Bool.false_ne_true h
  unfold lastWithKey
  rw [List.filter_append, h1, List.nil_append]
  exact lastWithKey_dedupLast k N

theorem pairwise_foldl_updateMasterLog :
    ∀ (batches : List (List SettledBet)) (E : List SettledBet), batches ≠ [] →
      List.Pairwise (fun a b => bkey a ≠ bkey b)
        (batches.foldl updateMasterLog E) := by
  intro batches
  induction batches with
  | nil => intro E h; exact absurd rfl h
  | cons N rest ih =>
    intro E _
    cases rest with
    | nil => exact pairwise_dedupLast (E ++ N)
    | cons M rest2 =>
        exact ih (updateMasterLog E N) (List.cons_ne_nil _ _)

/- ### Helper lemmas for the cumulative-capital series -/

theorem cumsumFrom_getD : ∀ (l : List ℚ) (s : ℚ) (k : ℕ), k < l.length →
    (cumsumFrom s l).getD k 0 = s + (l.take (k + 1)).sum := by
  intro l
  induction l with
  | nil => intro s k h; simp at h
  | cons x xs ih =>
    intro s k h
    cases k with
    | zero => simp [cumsumFrom]
    | succ k =>
      have hk : k < xs.length := Nat.lt_of_succ_lt_succ h
      simp only [cumsumFrom, List.getD_cons_succ, List.take_succ_cons,
        List.sum_cons]
      rw [ih (s + x) k hk, add_assoc]

theorem take_sum_getD : ∀ (l : List ℚ) (k : ℕ), k < l.length →
    (l.take (k + 1)).sum = (l.take k).sum + l.getD k 0 := by
  intro l
  induction l with
  | nil => intro k h; simp at h
  | cons x xs ih =>
    intro k h
    cases k with
    | zero => simp
    | succ k =>
      simp only [List.take_succ_cons, List.sum_cons, List.getD_cons_succ]
      rw [ih k (Nat.lt_of_succ_lt_succ h), add_assoc]

/- ### Helper lemmas for the schedule sort -/

theorem insertByDate_length (a : RaceEntry) :
    ∀ l : List RaceEntry, (insertByDate a l).length = l.length + 1 := by
  intro l
  induction l with
  | nil => rfl
  | cons b bs ih =>
    simp only [insertByDate]
    by_cases h : dateD a ≤ dateD b
    · rw [if_pos h]; rfl
    · rw [if_neg h]; simp [ih]

theorem sortByDate_length : ∀ l : List RaceEntry,
    (sortByDate l).length = l.length := by
  intro l
  induction l with
  | nil => rfl
  | cons a l ih =>
    have : sortByDate (a :: l) = insertByDate a (sortByDate l) := rfl
    rw [this, insertByDate_length, ih]
    rfl

theorem sortByDate_eq_nil {l : List RaceEntry} (h : sortByDate l = []) :
    l = [] := by
  have := sortByDate_length l
  rw [h] at this
  exact List.length_eq_zero.mp this.symm

theorem sortByDate_head : ∀ (l : List RaceEntry) (h : RaceEntry)
    (t : List RaceEntry), sortByDate l = h :: t →
    (∀ x ∈ l, dateD h ≤ dateD x) ∧
      ∃ l1 l2, l = l1 ++ h :: l2 ∧ ∀ x ∈ l1, dateD h < dateD x := by
  intro l
  induction l with
  | nil => intro h t he; exact absurd he (by simp [sortByDate])
  | cons a l' ih =>
    intro h t he
    have he' : insertByDate a (sortByDate l') = h :: t := he
    cases hsl : sortByDate l' with
    | nil =>
      have hl' : l' = [] := sortByDate_eq_nil hsl
      subst hl'
      rw [hsl] at he'
      simp only [insertByDate] at he'
      have ha : a = h := (List.cons_eq_cons.mp he').1
      subst ha
      refine ⟨fun x hx => ?_, [], [], rfl, by simp⟩
      rcases List.mem_singleton.mp hx with rfl
      exact le_refl _
    | cons h' t' =>
      rw [hsl] at he'
      obtain ⟨hmin, l1, l2, hdec, hstrict⟩ := ih h' t' hsl
      simp only [insertByDate] at he'
      by_cases hle : dateD a ≤ dateD h'
      · rw [if_pos hle] at he'
        have ha : a = h := (List.cons_eq_cons.mp he').1
        subst ha
        constructor
        · intro x hx
          rcases List.mem_cons.mp hx with rfl | hx'
          · exact le_refl _
          · exact le_trans hle (hmin x hx')
        · exact ⟨[], l', rfl, by simp⟩
      · rw [if_neg hle] at he'
        have hh : h' = h := (List.cons_eq_cons.mp he').1
        subst hh
        have hlt : dateD h' < dateD a := lt_of_not_ge hle
        constructor
        · intro x hx
          rcases List.mem_cons.mp hx with rfl | hx'
          · exact le_of_lt hlt
          · exact hmin x hx'
        · refine ⟨a :: l1, l2, by rw [hdec, List.cons_append], fun x hx => ?_⟩
          rcases List.mem_cons.mp hx with rfl | hx'
          · exact hlt
          · exact hstrict x hx'

/- ### Helper lemma for the watch-directory scan -/

theorem mem_foldl_append {α β : Type} (g : β → List α) :
    ∀ (ps : List β) (init : List α) (x : α),
      (x ∈ ps.foldl (fun acc p => acc ++ g p) init ↔
        x ∈ init ∨ ∃ p ∈ ps, x ∈ g p) := by
  intro ps
  induction ps with
  | nil => intro init x; simp
  | cons p ps ih =>
    intro init x
    rw [List.foldl_cons, ih]
    simp [List.mem_append, or_assoc]

/- ### Helper lemmas about `process_new_race_results` -/

theorem processNewRaceResults_invalid (cfg : EvalConfig)
    (recs : Option (List BetRow)) (f : RaceFile) (stamp : String)
    (gf af : Bool) (st : EvalState) (hv : validateFile f = false) :
    processNewRaceResults cfg recs f stamp gf af st = (false, st, []) := by
  unfold processNewRaceResults
  rw [hv]
  simp

theorem processNewRaceResults_noRecs (cfg : EvalConfig) (f : RaceFile)
    (stamp : String) (gf af : Bool) (st : EvalState) :
    processNewRaceResults cfg none f stamp gf af st = (false, st, []) := by
  unfold processNewRaceResults
  by_cases hv : validateFile f = true
  · rw [if_pos hv]
    cases hp : f.parsed with
    | none => rfl
    | some p => rfl
  · rw [if_neg hv]

theorem processNewRaceResults_masterLog (cfg : EvalConfig)
    (betting : List BetRow) (p : ParsedCsv) (f : RaceFile) (stamp : String)
    (gf af : Bool) (st : EvalState)
    (hv : validateFile f = true) (hp : f.parsed = some p) :
    ((processNewRaceResults cfg (some betting) f stamp gf af st).2.1).masterLog
      = updateMasterLog st.masterLog (processBatch cfg betting p f stamp) := by
  unfold processNewRaceResults
  rw [if_pos hv, hp]

theorem validateFile_some {f : RaceFile} (hv : validateFile f = true) :
    ∃ p, f.parsed = some p := by
  unfold validateFile at hv
  cases hp : f.parsed with
  | none => rw [hp] at hv; cases hv
  | some p => exact ⟨p, rfl⟩

/- ### Claim theorems -/

/-- C1: every sequence of appends through `update_master_log` leaves the
master ledger with at most one row per `(Race_Name, Driver)` pair, and when
an incoming batch contains a pair already present, the row kept for that
pair is the last one of the incoming batch, after any number of
reprocessing attempts. -/
theorem claim1_no_double_settlement :
    (∀ (E : List SettledBet) (batches : List (List SettledBet)),
        batches ≠ [] →
          List.Pairwise (fun a b => bkey a ≠ bkey b)
            (batches.foldl updateMasterLog E)) ∧
    (∀ (E N : List SettledBet) (k : String × String), keyMem k N = true →
        lastWithKey k (updateMasterLog E N) = lastWithKey k N) :=
  ⟨fun E b h => pairwise_foldl_updateMasterLog b E h,
   fun E N k h => lastWithKey_updateMasterLog E N k h⟩

/-- Witness for C1 at a concrete ledger: one existing row and one
reprocessed row for the same `(race, driver)` pair. -/
theorem claim1_no_double_settlement_witness :
    List.Pairwise (fun a b => bkey a ≠ bkey b)
      (List.foldl updateMasterLog
        [{ Race_Name := "Bahrain GP", Driver := "VER", Quote := 5,
           Predicted_Probability := 1/2, EV := 1, Actual_Position := 2,
           Bet_Amount := 10, Outcome := "WIN", Profit_Loss := 40,
           Success_Threshold := 3 }]
        [[{ Race_Name := "Bahrain GP", Driver := "VER", Quote := 4,
            Predicted_Probability := 1/2, EV := 1, Actual_Position := 5,
            Bet_Amount := 10, Outcome := "LOSS", Profit_Loss := -10,
            Success_Threshold := 3 }]]) ∧
    lastWithKey ("Bahrain GP", "VER")
        (updateMasterLog
          [{ Race_Name := "Bahrain GP", Driver := "VER", Quote := 5,
             Predicted_Probability := 1/2, EV := 1, Actual_Position := 2,
             Bet_Amount := 10, Outcome := "WIN", Profit_Loss := 40,
             Success_Threshold := 3 }]
          [{ Race_Name := "Bahrain GP", Driver := "VER", Quote := 4,
             Predicted_Probability := 1/2, EV := 1, Actual_Position := 5,
             Bet_Amount := 10, Outcome := "LOSS", Profit_Loss := -10,
             Success_Threshold := 3 }]) =
      lastWithKey ("Bahrain GP", "VER")
        [{ Race_Name := "Bahrain GP", Driver := "VER", Quote := 4,
           Predicted_Probability := 1/2, EV := 1, Actual_Position := 5,
           Bet_Amount := 10, Outcome := "LOSS", Profit_Loss := -10,
           Success_Threshold := 3 }] := by
  constructor
  · exact claim1_no_double_settlement.1 _ _ (by simp)
  · exact claim1_no_double_settlement.2 _ _ _ (by decide)

/-- C3: a joined row settles as WIN exactly when the actual position is at
most the success threshold, with profit `Quote * stake - stake` on WIN and
`-stake` on LOSS; in particular stake 10, odds 5, threshold 3 gives profit
40 at position 2 and profit -10 at position 5. -/
theorem claim3_settlement_profit :
    (∀ (b : BetRow) (r : ResultRow) (thr : ℤ) (stake : ℚ),
        ((settleRow thr stake b r).Outcome = "WIN" ↔
          r.Actual_Position ≤ thr) ∧
        (r.Actual_Position ≤ thr →
          (settleRow thr stake b r).Profit_Loss = b.Quote * stake - stake) ∧
        (¬ r.Actual_Position ≤ thr →
          (settleRow thr stake b r).Profit_Loss = -stake)) ∧
    (settleRow 3 10 ⟨"VER", 5, 1/2, 1, "Bahrain GP"⟩
        ⟨"VER", 2, "Bahrain GP"⟩).Outcome = "WIN" ∧
    (settleRow 3 10 ⟨"VER", 5, 1/2, 1, "Bahrain GP"⟩
        ⟨"VER", 2, "Bahrain GP"⟩).Profit_Loss = 40 ∧
    (settleRow 3 10 ⟨"VER", 5, 1/2, 1, "Bahrain GP"⟩
        ⟨"VER", 5, "Bahrain GP"⟩).Outcome = "LOSS" ∧
    (settleRow 3 10 ⟨"VER", 5, 1/2, 1, "Bahrain GP"⟩
        ⟨"VER", 5, "Bahrain GP"⟩).Profit_Loss = -10 := by
  refine ⟨fun b r thr stake => ?_, by norm_num [settleRow],
    by norm_num [settleRow], by norm_num [settleRow],
    by norm_num [settleRow]⟩
  by_cases h : r.Actual_Position ≤ thr
  · refine ⟨by simp [settleRow, h], fun _ => by simp [settleRow, h], fun hc => absurd h hc⟩
  · refine ⟨?_, fun hc => absurd hc h, fun _ => by simp [settleRow, h]⟩
    simp only [settleRow, if_neg h]
    constructor
    · intro hw; exact absurd hw (by decide)
    · intro hc; exact absurd hc h

/-- Witness for C3 discharging the positional hypotheses at the concrete
scenarios. -/
theorem claim3_settlement_profit_witness :
    (settleRow 3 10 ⟨"VER", 5, 1/2, 1, "Bahrain GP"⟩
        ⟨"VER", 2, "Bahrain GP"⟩).Profit_Loss = 5 * 10 - 10 ∧
    (settleRow 3 10 ⟨"VER", 5, 1/2, 1, "Bahrain GP"⟩
        ⟨"VER", 5, "Bahrain GP"⟩).Profit_Loss = -10 :=
  ⟨(claim3_settlement_profit.1 _ _ 3 10).2.1 (by decide),
   (claim3_settlement_profit.1 _ _ 3 10).2.2 (by decide)⟩

/-- C4 counterexample: the code's capital series follows the
lexicographically sorted race keys of `groupby`, not the ledger's
first-seen race order.  A ledger whose first race is "B" (profit 10) and
second race is "A" (profit -5) yields `[995, 1005]`, while the first-seen
series the claim describes is `[1010, 1005]`. -/
theorem claim4_counterexample :
    capitalSeries exampleLedger 1000 = [995, 1005] ∧
    firstSeenCapitalSeries exampleLedger 1000 = [1010, 1005] ∧
    capitalSeries exampleLedger 1000 ≠ firstSeenCapitalSeries exampleLedger 1000 := by
  have hAB : ("A" : String) < "B" := by
    simp
    decide
  have hBA : ¬ ("B" : String) < "A" := by
    simp
    decide
  have hne1 : ("B" : String) ≠ "A" := by decide
  have hne2 : ("A" : String) ≠ "B" := by decide
  have h1 : capitalSeries exampleLedger 1000 = [995, 1005] := by
    norm_num [capitalSeries, raceProfits, raceKeys, sortStr, insertStr,
      firstSeenAux, raceProfitSum, cumsumFrom, exampleLedger,
      List.filter_cons, List.filter_nil, hAB, hBA, hne1, hne2]
  have h2 : firstSeenCapitalSeries exampleLedger 1000 = [1010, 1005] := by
    norm_num [firstSeenCapitalSeries, firstSeenAux, raceProfitSum,
      cumsumFrom, exampleLedger, List.filter_cons, List.filter_nil,
      hne1, hne2]
  refine ⟨h1, h2, ?_⟩
  rw [h1, h2]
  intro hcon
  have := (List.cons_eq_cons.mp hcon).1
  norm_num at this

/-- C4 amended: the regenerated capital series indexes races in sorted
race-name order (the `groupby` key order), and with that order the value at
race k is the starting capital plus the first k+1 per-race sums;
equivalently each value is the previous one plus that race's summed
profit/loss. -/
theorem claim4_capital_series :
    (∀ (log : List SettledBet) (start : ℚ) (k : ℕ),
        k < (raceProfits log).length →
          (capitalSeries log start).getD k 0 =
            start + ((raceProfits log).take (k + 1)).sum) ∧
    (∀ (log : List SettledBet) (start : ℚ) (k : ℕ),
        k + 1 < (raceProfits log).length →
          (capitalSeries log start).getD (k + 1) 0 =
            (capitalSeries log start).getD k 0 +
              (raceProfits log).getD (k + 1) 0) := by
  constructor
  · intro log start k h
    exact cumsumFrom_getD (raceProfits log) start k h
  · intro log start k h
    have h0 : k < (raceProfits log).length := Nat.lt_of_succ_lt h
    have ht := take_sum_getD (raceProfits log) (k + 1) h
    calc (capitalSeries log start).getD (k + 1) 0
        = start + ((raceProfits log).take (k + 2)).sum :=
          cumsumFrom_getD (raceProfits log) start (k + 1) h
      _ = start + (((raceProfits log).take (k + 1)).sum +
            (raceProfits log).getD (k + 1) 0) := by rw [ht]
      _ = (start + ((raceProfits log).take (k + 1)).sum) +
            (raceProfits log).getD (k + 1) 0 := by rw [add_assoc]
      _ = (capitalSeries log start).getD k 0 +
            (raceProfits log).getD (k + 1) 0 :=
          congrArg (fun z => z + (raceProfits log).getD (k + 1) 0)
            (cumsumFrom_getD (raceProfits log) start k h0).symm

/-- Witness for C4 at the two-race sample ledger. -/
theorem claim4_capital_series_witness :
    (capitalSeries exampleLedger 1000).getD 1 0 =
      (capitalSeries exampleLedger 1000).getD 0 0 +
        (raceProfits exampleLedger).getD 1 0 := by
  have hAB : ("A" : String) < "B" := by
    simp
    decide
  have hBA : ¬ ("B" : String) < "A" := by
    simp
    decide
  have hlen : (raceProfits exampleLedger).length = 2 := by
    norm_num [raceProfits, raceKeys, sortStr, insertStr, firstSeenAux,
      exampleLedger, List.filter_cons, List.filter_nil, hAB, hBA]
  exact claim4_capital_series.2 exampleLedger 1000 0 (by rw [hlen]; norm_num)

/-- C5 counterexample: at `now = T - 25h` the prediction and odds-fetch
offsets of 24h are due, because the window test is inclusive:
`|25 - 24| = 1 <= 1`.  The claim asserts this instant is not due. -/
theorem claim5_counterexample :
    shouldGeneratePredictions defaultPredictionHours (25 * 3600) 0 = true ∧
    shouldFetchOdds defaultOddsFetchHours (25 * 3600) 0 = true := by
  constructor
  · norm_num [shouldGeneratePredictions, hoursUntilRace,
      defaultPredictionHours, abs_le]
  · norm_num [shouldFetchOdds, hoursUntilRace, defaultOddsFetchHours,
      List.any_cons, abs_le]

/-- C5 amended: an offset is due exactly when the hours until the race are
within the inclusive 1-hour window around it; for offset 24h the instants
`T - 24h` and `T - 25h` (boundary) are due and `T - 22.9h` is not. -/
theorem claim5_clock_window :
    (∀ (fetchTimes : List ℚ) (raceTime now : ℚ),
        (shouldFetchOdds fetchTimes raceTime now = true ↔
          ∃ ft ∈ fetchTimes, |hoursUntilRace raceTime now - ft| ≤ 1)) ∧
    (∀ (pt raceTime now : ℚ),
        (shouldGeneratePredictions pt raceTime now = true ↔
          |hoursUntilRace raceTime now - pt| ≤ 1)) ∧
    shouldGeneratePredictions 24 (24 * 3600) 0 = true ∧
    shouldGeneratePredictions 24 (25 * 3600) 0 = true ∧
    shouldGeneratePredictions 24 (229 * 360) 0 = false := by
  refine ⟨?_, ?_,
    by norm_num [shouldGeneratePredictions, hoursUntilRace, abs_le],
    by norm_num [shouldGeneratePredictions, hoursUntilRace, abs_le],
    by norm_num [shouldGeneratePredictions, hoursUntilRace, abs_le]⟩
  · intro fetchTimes raceTime now
    simp [shouldFetchOdds]
  · intro pt raceTime now
    simp [shouldGeneratePredictions]

/-- C10: a file whose name matches two configured patterns is appended to
the candidate list once per pattern, so one scan returns it twice and the
per-file loop would process it twice within one check. -/
theorem claim10_duplicate_candidates :
    detectNewRaceFiles defaultFilePatterns defaultMinFileAge []
        [{ name := "race_results_2024.csv", age := 60, parsed := none }] =
      [{ name := "race_results_2024.csv", age := 60, parsed := none },
       { name := "race_results_2024.csv", age := 60, parsed := none }] ∧
    (detectNewRaceFiles defaultFilePatterns defaultMinFileAge []
        [{ name := "race_results_2024.csv", age := 60, parsed := none }]).count
      { name := "race_results_2024.csv", age := 60, parsed := none } = 2 := by
  have hg1 : globMatchStr "*results*.csv" "race_results_2024.csv" = true := by
    decide
  have hg2 : globMatchStr "*race_results*.csv" "race_results_2024.csv"
      = true := by decide
  have hg3 : globMatchStr "*actual*.csv" "race_results_2024.csv" = false := by
    decide
  have h1 : detectNewRaceFiles defaultFilePatterns defaultMinFileAge []
      [{ name := "race_results_2024.csv", age := 60, parsed := none }] =
      [{ name := "race_results_2024.csv", age := 60, parsed := none },
       { name := "race_results_2024.csv", age := 60, parsed := none }] := by
    norm_num [detectNewRaceFiles, defaultFilePatterns, defaultMinFileAge,
      List.filter_cons, List.filter_nil, hg1, hg2, hg3]
  refine ⟨h1, ?_⟩
  rw [h1]
  rw [List.count_cons_self, List.count_cons_self, List.count_nil]

/-- C8: a scan returns a directory file as a candidate exactly when its name
matches at least one configured glob pattern, it is at least
`min_file_age` seconds old, and its name is not in the processed-races
registry; with files aged 10s and 60s and `min_file_age` 30s only the 60s
file is returned. -/
theorem claim8_watcher_scan :
    (∀ (patterns : List String) (minAge : ℚ) (registry : List String)
        (watch : List RaceFile) (f : RaceFile),
        (f ∈ detectNewRaceFiles patterns minAge registry watch ↔
          f ∈ watch ∧ (∃ pat ∈ patterns, globMatchStr pat f.name = true) ∧
            minAge ≤ f.age ∧ f.name ∉ registry)) ∧
    detectNewRaceFiles ["*results*.csv"] 30 []
        [{ name := "b_results.csv", age := 10, parsed := none },
         { name := "a_results.csv", age := 60, parsed := none }] =
      [{ name := "a_results.csv", age := 60, parsed := none }] := by
  constructor
  · intro patterns minAge registry watch f
    unfold detectNewRaceFiles
    rw [mem_foldl_append]
    simp only [List.not_mem_nil, false_or, List.mem_filter,
      Bool.and_eq_true, decide_eq_true_eq]
    constructor
    · rintro ⟨pat, hpat, ⟨⟨hw, hg⟩, hage, hreg⟩⟩
      exact ⟨hw, ⟨pat, hpat, hg⟩, hage, hreg⟩
    · rintro ⟨hw, ⟨pat, hpat, hg⟩, hage, hreg⟩
      exact ⟨pat, hpat, ⟨⟨hw, hg⟩, hage, hreg⟩⟩
  · have hg1 : globMatchStr "*results*.csv" "b_results.csv" = true := by
      decide
    have hg2 : globMatchStr "*results*.csv" "a_results.csv" = true := by
      decide
    norm_num [detectNewRaceFiles, List.filter_cons, List.filter_nil,
      hg1, hg2]

/-- C9: `get_next_race` returns the race with the earliest start strictly
after `now` (ties resolved to the earliest in list order, without
crashing), and `none` exactly when no dated future race exists. -/
theorem claim9_next_race :
    ∀ (races : List RaceEntry) (now : ℤ),
      (getNextRace races now = none ↔
        races.filter (isUpcoming now) = []) ∧
      (∀ (r : RaceEntry) (t : ℤ), getNextRace races now = some (r, t) →
        r ∈ races ∧ r.race_date = some t ∧ now < t ∧
        (∀ r' ∈ races, isUpcoming now r' = true →
          ∀ t', r'.race_date = some t' → t ≤ t') ∧
        ∃ l1 l2, races.filter (isUpcoming now) = l1 ++ r :: l2 ∧
          ∀ r' ∈ l1, t < dateD r') := by
  intro races now
  constructor
  · unfold getNextRace
    cases hs : sortByDate (races.filter (isUpcoming now)) with
    | nil =>
      simp only [true_iff]
      exact sortByDate_eq_nil hs
    | cons r rest =>
      simp only [reduceCtorEq, false_iff]
      intro hfil
      rw [hfil] at hs
      exact absurd hs (by simp [sortByDate])
  · intro r t hr
    unfold getNextRace at hr
    cases hs : sortByDate (races.filter (isUpcoming now)) with
    | nil => rw [hs] at hr; cases hr
    | cons h tl =>
      rw [hs] at hr
      have hpair : h = r ∧ dateD h = t := by
        have := Option.some.inj hr
        exact ⟨congrArg Prod.fst this, congrArg Prod.snd this⟩
      obtain ⟨rfl, hdt⟩ := hpair
      obtain ⟨hmin, l1, l2, hdec, hstrict⟩ :=
        sortByDate_head (races.filter (isUpcoming now)) h tl hs
      have hhmem : h ∈ races.filter (isUpcoming now) := by
        rw [hdec]
        exact List.mem_append.mpr (Or.inr (List.mem_cons_self _ _))
      have hhr := List.mem_filter.mp hhmem
      have hup : isUpcoming now h = true := hhr.2
      obtain ⟨u, hu⟩ : ∃ u, h.race_date = some u := by
        unfold isUpcoming at hup
        cases hd : h.race_date with
        | none => rw [hd] at hup; cases hup
        | some u => exact ⟨u, rfl⟩
      have hdu : dateD h = u := by unfold dateD; rw [hu]; rfl
      have hnu : now < u := by
        unfold isUpcoming at hup
        rw [hu] at hup
        exact of_decide_eq_true hup
      subst hdt
      refine ⟨hhr.1, by rw [hu, hdu], by rw [hdu]; exact hnu, ?_, ?_⟩
      · intro r' hr' hup' t' ht'
        have hr'fil : r' ∈ races.filter (isUpcoming now) :=
          List.mem_filter.mpr ⟨hr', hup'⟩
        have := hmin r' hr'fil
        have hdt' : dateD r' = t' := by unfold dateD; rw [ht']; rfl
        rw [hdt'] at this
        exact this
      · exact ⟨l1, l2, hdec, hstrict⟩

/-- Witness for C9 at a two-race schedule with a past and a future race. -/
theorem claim9_next_race_witness :
    ({ race_name := "R2", race_date := some 200, round_number := 2 }
        : RaceEntry) ∈
      [({ race_name := "R1", race_date := some 100, round_number := 1 }
          : RaceEntry),
       { race_name := "R2", race_date := some 200, round_number := 2 }] ∧
    ({ race_name := "R2", race_date := some 200, round_number := 2 }
        : RaceEntry).race_date = some 200 := by
  have h := (claim9_next_race
    [{ race_name := "R1", race_date := some 100, round_number := 1 },
     { race_name := "R2", race_date := some 200, round_number := 2 }]
    150).2
    { race_name := "R2", race_date := some 200, round_number := 2 } 200
    (by decide)
  exact ⟨h.1, h.2.1⟩

/-- C7: a file failing validation (unreadable, or missing the Driver or
Actual_Position column) is rejected by `process_new_race_results` without
any state mutation, so it stays in the watch directory and outside the
registry, and it contributes nothing to the processed count of
`run_single_check`. -/
theorem claim7_validation_failure :
    ∀ (cfg : EvalConfig) (recs : Option (List BetRow)) (f : RaceFile)
      (stamp : String) (gf af : Bool) (st : EvalState),
      validateFile f = false →
        processNewRaceResults cfg recs f stamp gf af st = (false, st, []) ∧
        processFilesCount cfg recs stamp gf af [f] st = (0, st) := by
  intro cfg recs f stamp gf af st hv
  have hp : processNewRaceResults cfg recs f stamp gf af st =
      (false, st, []) := by
    unfold processNewRaceResults
    rw [hv]
    simp
  refine ⟨hp, ?_⟩
  unfold processFilesCount
  rw [List.foldl_cons, List.foldl_nil]
  simp [hp]

/-- Witness for C7 at an unreadable file. -/
theorem claim7_validation_failure_witness :
    processNewRaceResults ⟨3, 10, 1000⟩ none
        { name := "foo.csv", age := 60, parsed := none } "s" false false
        ⟨[], [], ["foo.csv"], [], []⟩ =
      (false, ⟨[], [], ["foo.csv"], [], []⟩, []) ∧
    processFilesCount ⟨3, 10, 1000⟩ none "s" false false
        [{ name := "foo.csv", age := 60, parsed := none }]
        ⟨[], [], ["foo.csv"], [], []⟩ =
      (0, ⟨[], [], ["foo.csv"], [], []⟩) :=
  claim7_validation_failure ⟨3, 10, 1000⟩ none
    { name := "foo.csv", age := 60, parsed := none } "s" false false
    ⟨[], [], ["foo.csv"], [], []⟩ rfl

/-- C6 counterexample: when the capital-series regeneration fails (the
exception is caught inside `update_profit_graph`), the archive move and the
registry update are still performed, so they are not gated on the
regeneration having succeeded as the claim asserts. -/
theorem claim6_counterexample :
    (processNewRaceResults ⟨3, 10, 1000⟩
        (some [⟨"VER", 5, 1/2, 1, "Bahrain GP"⟩])
        { name := "bahrain.csv", age := 60,
          parsed := some ⟨true, true, false, [⟨"VER", 1, "x"⟩]⟩ }
        "20240101" true false
        ⟨[], [], ["bahrain.csv"], [], []⟩).1 = true ∧
    (processNewRaceResults ⟨3, 10, 1000⟩
        (some [⟨"VER", 5, 1/2, 1, "Bahrain GP"⟩])
        { name := "bahrain.csv", age := 60,
          parsed := some ⟨true, true, false, [⟨"VER", 1, "x"⟩]⟩ }
        "20240101" true false
        ⟨[], [], ["bahrain.csv"], [], []⟩).2.2 =
      [Ev.ledgerAppend, Ev.archiveMove, Ev.registryUpdate] ∧
    Ev.graphRegen ∉ (processNewRaceResults ⟨3, 10, 1000⟩
        (some [⟨"VER", 5, 1/2, 1, "Bahrain GP"⟩])
        { name := "bahrain.csv", age := 60,
          parsed := some ⟨true, true, false, [⟨"VER", 1, "x"⟩]⟩ }
        "20240101" true false
        ⟨[], [], ["bahrain.csv"], [], []⟩).2.2 ∧
    Ev.archiveMove ∈ (processNewRaceResults ⟨3, 10, 1000⟩
        (some [⟨"VER", 5, 1/2, 1, "Bahrain GP"⟩])
        { name := "bahrain.csv", age := 60,
          parsed := some ⟨true, true, false, [⟨"VER", 1, "x"⟩]⟩ }
        "20240101" true false
        ⟨[], [], ["bahrain.csv"], [], []⟩).2.2 := by
  refine ⟨by decide, by decide, by decide, by decide⟩

/-- C6 amended: within one `process_new_race_results` call the performed
mutations always occur in the order ledger append, graph regeneration,
archive move, registry update; archive and registry happen only after a
successful ledger append (graph regeneration is attempted in between but
its failure is swallowed); and a call that fails before the append leaves
the state, hence the watch directory and the registry, unchanged. -/
theorem claim6_ordering :
    ∀ (cfg : EvalConfig) (recs : Option (List BetRow)) (f : RaceFile)
      (stamp : String) (gf af : Bool) (st : EvalState),
      List.Sublist (processNewRaceResults cfg recs f stamp gf af st).2.2
          [Ev.ledgerAppend, Ev.graphRegen, Ev.archiveMove,
           Ev.registryUpdate] ∧
      ((Ev.archiveMove ∈
          (processNewRaceResults cfg recs f stamp gf af st).2.2 ∨
        Ev.registryUpdate ∈
          (processNewRaceResults cfg recs f stamp gf af st).2.2) →
        Ev.ledgerAppend ∈
          (processNewRaceResults cfg recs f stamp gf af st).2.2) ∧
      ((processNewRaceResults cfg recs f stamp gf af st).1 = false →
        (processNewRaceResults cfg recs f stamp gf af st).2.1 = st ∧
        (processNewRaceResults cfg recs f stamp gf af st).2.2 = []) := by
  intro cfg recs f stamp gf af st
  unfold processNewRaceResults
  by_cases hv : validateFile f = true
  · rw [if_pos hv]
    cases hp : f.parsed with
    | none =>
      exact ⟨List.nil_sublist _, by simp, fun _ => ⟨rfl, rfl⟩⟩
    | some p =>
      cases recs with
      | none =>
        exact ⟨List.nil_sublist _, by simp, fun _ => ⟨rfl, rfl⟩⟩
      | some betting =>
        refine ⟨?_, fun _ => by cases gf <;> cases af <;> simp,
          fun h => Bool.noConfusion h⟩
        cases gf <;> cases af
        · show List.Sublist
            [Ev.ledgerAppend, Ev.graphRegen, Ev.archiveMove,
             Ev.registryUpdate]
            [Ev.ledgerAppend, Ev.graphRegen, Ev.archiveMove,
             Ev.registryUpdate]
          decide
        · show List.Sublist
            [Ev.ledgerAppend, Ev.graphRegen, Ev.registryUpdate]
            [Ev.ledgerAppend, Ev.graphRegen, Ev.archiveMove,
             Ev.registryUpdate]
          decide
        · show List.Sublist
            [Ev.ledgerAppend, Ev.archiveMove, Ev.registryUpdate]
            [Ev.ledgerAppend, Ev.graphRegen, Ev.archiveMove,
             Ev.registryUpdate]
          decide
        · show List.Sublist
            [Ev.ledgerAppend, Ev.registryUpdate]
            [Ev.ledgerAppend, Ev.graphRegen, Ev.archiveMove,
             Ev.registryUpdate]
          decide
  · rw [if_neg hv]
    exact ⟨List.nil_sublist _, by simp, fun _ => ⟨rfl, rfl⟩⟩

/-- Witness for C6 at a call that fails validation: the trace is empty (and
trivially ordered) and the state is untouched. -/
theorem claim6_ordering_witness :
    List.Sublist (processNewRaceResults ⟨3, 10, 1000⟩ none
        { name := "x.csv", age := 60, parsed := none } "s" false false
        ⟨[], [], ["x.csv"], [], []⟩).2.2
      [Ev.ledgerAppend, Ev.graphRegen, Ev.archiveMove, Ev.registryUpdate] ∧
    (processNewRaceResults ⟨3, 10, 1000⟩ none
        { name := "x.csv", age := 60, parsed := none } "s" false false
        ⟨[], [], ["x.csv"], [], []⟩).2.1 = ⟨[], [], ["x.csv"], [], []⟩ ∧
    (processNewRaceResults ⟨3, 10, 1000⟩ none
        { name := "x.csv", age := 60, parsed := none } "s" false false
        ⟨[], [], ["x.csv"], [], []⟩).2.2 = [] := by
  have h := claim6_ordering ⟨3, 10, 1000⟩ none
    { name := "x.csv", age := 60, parsed := none } "s" false false
    ⟨[], [], ["x.csv"], [], []⟩
  exact ⟨h.1, (h.2.2 rfl).1, (h.2.2 rfl).2⟩

/-- C2: processing the same unmodified result file twice (the registry
having been reset in between) leaves the master ledger identical to
processing it once, provided the race-name extraction resolves identically
on both calls (it only depends on the wall clock through the
timestamp-fallback branch). -/
theorem claim2_idempotent_reconciliation :
    ∀ (cfg : EvalConfig) (recs : Option (List BetRow)) (f : RaceFile)
      (s1 s2 : String) (g1 a1 g2 a2 : Bool) (st : EvalState),
      extractRaceName f s1 = extractRaceName f s2 →
      ((processNewRaceResults cfg recs f s2 g2 a2
          (processNewRaceResults cfg recs f s1 g1 a1 st).2.1).2.1).masterLog =
        ((processNewRaceResults cfg recs f s1 g1 a1 st).2.1).masterLog := by
  intro cfg recs f s1 s2 g1 a1 g2 a2 st hex
  by_cases hv : validateFile f = true
  · rcases validateFile_some hv with ⟨p, hp⟩
    cases recs with
    | none =>
      rw [processNewRaceResults_noRecs, processNewRaceResults_noRecs]
    | some betting =>
      have hb : processBatch cfg betting p f s2 =
          processBatch cfg betting p f s1 := by
        unfold processBatch
        rw [← hex]
      rw [processNewRaceResults_masterLog cfg betting p f s2 g2 a2
            ((processNewRaceResults cfg (some betting) f s1 g1 a1 st).2.1)
            hv hp,
          processNewRaceResults_masterLog cfg betting p f s1 g1 a1 st hv hp,
          hb]
      exact updateMasterLog_idem st.masterLog (processBatch cfg betting p f s1)
  · have hv' : validateFile f = false := by
      revert hv
      cases validateFile f <;> simp
    rw [processNewRaceResults_invalid cfg recs f s1 g1 a1 st hv']
    rw [processNewRaceResults_invalid cfg recs f s2 g2 a2 _ hv']

/-- Witness for C2 on a keyword-named file, whose race-name extraction does
not depend on the timestamp. -/
theorem claim2_idempotent_reconciliation_witness :
    ((processNewRaceResults ⟨3, 10, 1000⟩
        (some [⟨"VER", 5, 1/2, 1, "Bahrain GP"⟩])
        { name := "bahrain.csv", age := 60,
          parsed := some ⟨true, true, false, [⟨"VER", 1, "x"⟩]⟩ }
        "b" false false
        (processNewRaceResults ⟨3, 10, 1000⟩
          (some [⟨"VER", 5, 1/2, 1, "Bahrain GP"⟩])
          { name := "bahrain.csv", age := 60,
            parsed := some ⟨true, true, false, [⟨"VER", 1, "x"⟩]⟩ }
          "a" false false
          ⟨[], [], ["bahrain.csv"], [], []⟩).2.1).2.1).masterLog =
      ((processNewRaceResults ⟨3, 10, 1000⟩
          (some [⟨"VER", 5, 1/2, 1, "Bahrain GP"⟩])
          { name := "bahrain.csv", age := 60,
            parsed := some ⟨true, true, false, [⟨"VER", 1, "x"⟩]⟩ }
          "a" false false
          ⟨[], [], ["bahrain.csv"], [], []⟩).2.1).masterLog :=
  claim2_idempotent_reconciliation ⟨3, 10, 1000⟩
    (some [⟨"VER", 5, 1/2, 1, "Bahrain GP"⟩])
    { name := "bahrain.csv", age := 60,
      parsed := some ⟨true, true, false, [⟨"VER", 1, "x"⟩]⟩ }
    "a" "b" false false false false ⟨[], [], ["bahrain.csv"], [], []⟩
    (by decide)

/-- Witness for C5 instantiating the window characterization at offset 24h
and `now = T - 24h`. -/
theorem claim5_clock_window_witness :
    shouldGeneratePredictions 24 (24 * 3600) 0 = true ↔
      |hoursUntilRace (24 * 3600) 0 - 24| ≤ 1 :=
  claim5_clock_window.2.1 24 (24 * 3600) 0

/-- Witness for C8 instantiating the scan characterization at a concrete
directory. -/
theorem claim8_watcher_scan_witness :
    ({ name := "a_results.csv", age := 60, parsed := none } : RaceFile) ∈
        detectNewRaceFiles ["*results*.csv"] 30 []
          [{ name := "a_results.csv", age := 60, parsed := none }] ↔
      ({ name := "a_results.csv", age := 60, parsed := none } : RaceFile) ∈
          [({ name := "a_results.csv", age := 60, parsed := none }
            : RaceFile)] ∧
        (∃ pat ∈ ["*results*.csv"],
          globMatchStr pat "a_results.csv" = true) ∧
        (30 : ℚ) ≤ 60 ∧ "a_results.csv" ∉ ([] : List String) :=
  claim8_watcher_scan.1 ["*results*.csv"] 30 []
    [{ name := "a_results.csv", age := 60, parsed := none }]
    { name := "a_results.csv", age := 60, parsed := none }
